import Mathlib

/-!
Verification development for the sfz static file server.

Each Rust function under scrutiny is translated into a Lean definition over a
shallow embedding: machine integers become `Nat` with explicit wrapping where
the Rust code can overflow, header values become small inductive types, the
filesystem and floating-point parsing become explicit oracles passed in as
arguments.  Theorems then settle the specification claims against those
definitions.
-/

namespace Sfz

/-! Conditional requests (src/http/conditional_requests.rs)

The file is written against hyper 0.11 typed headers.  Times are modelled as
whole seconds since the Unix epoch (`SystemTimeExt::timestamp` returns `u64`
seconds, so a `Nat`), which is exactly the precision the Rust code compares
at after its `timestamp()` conversions. -/

/-- HTTP method, as hyper's `Method` restricted to the variants the evaluator
distinguishes: `Get`, `Head`, and a sample of the others (all non-GET/HEAD
methods behave identically in this file). -/
inductive Method where
  | get
  | head
  | post
  | put
  | delete
  deriving DecidableEq, Repr

/-- hyper `EntityTag`: weakness flag plus the opaque tag body. -/
structure EntityTag where
  weak : Bool
  tag : String
  deriving DecidableEq, Repr

/-- hyper `EntityTag::strong_eq`: both tags strong and opaque bodies equal. -/
def EntityTag.strongEq (a b : EntityTag) : Bool :=
  !a.weak && !b.weak && a.tag == b.tag

/-- hyper `EntityTag::weak_eq`: opaque bodies equal, weakness ignored. -/
def EntityTag.weakEq (a b : EntityTag) : Bool :=
  a.tag == b.tag

/-- hyper `EntityTag::weak_ne`: negation of the weak comparison. -/
def EntityTag.weakNe (a b : EntityTag) : Bool :=
  !(a.weakEq b)

/-- hyper `IfMatch` header value. -/
inductive IfMatch where
  | any
  | items (tags : List EntityTag)
  deriving DecidableEq, Repr

/-- hyper `IfNoneMatch` header value. -/
inductive IfNoneMatch where
  | any
  | items (tags : List EntityTag)
  deriving DecidableEq, Repr

/-- The request fields consulted by `conditional_requests.rs`.  A header that
is absent from the request is `none`.  `If-(Un)Modified-Since` dates are in
whole seconds since the epoch. -/
structure Request where
  method : Method
  ifMatch : Option IfMatch
  ifNoneMatch : Option IfNoneMatch
  ifUnmodifiedSince : Option Nat
  ifModifiedSince : Option Nat
  deriving DecidableEq, Repr

/-- Rust `check_if_match`: `If-Match` passes when it is `*` or some listed tag
strong-matches the current ETag. -/
def check_if_match (etag : EntityTag) (ifMatch : IfMatch) : Bool :=
  match ifMatch with
  | .any => true
  | .items tags => tags.any (fun tag => tag.strongEq etag)

/-- Rust `check_if_none_match`: `If-None-Match` passes when it is not `*` and every
listed tag weak-differs from the current ETag. -/
def check_if_none_match (etag : EntityTag) (ifNoneMatch : IfNoneMatch) : Bool :=
  match ifNoneMatch with
  | .any => false
  | .items tags => tags.all (fun tag => tag.weakNe etag)

/-- Rust `check_if_unmodified_since`: passes when the last-modified time, in whole
seconds, is at or before the given date. -/
def check_if_unmodified_since (lastModified : Nat) (since : Nat) : Bool :=
  lastModified ≤ since

/-- Rust `check_if_modified_since`: negation of `check_if_unmodified_since`. -/
def check_if_modified_since (lastModified : Nat) (since : Nat) : Bool :=
  !check_if_unmodified_since lastModified since

/-- Rust `is_method_get_head`. -/
def is_method_get_head (m : Method) : Bool :=
  match m with
  | .get => true
  | .head => true
  | _ => false

/-- Rust `is_precondition_failed` from `conditional_requests.rs`.

The Rust body is three sequential blocks, each of which may `return true`
(there is no early `return false`), so it is transcribed as the disjunction
of the three block outcomes.  Note that every occurrence of step 3 in the
source only tests the PRESENCE of `If-None-Match` together with the method;
`check_if_none_match` is never called here. -/
def is_precondition_failed (req : Request) (etag : EntityTag)
    (lastModified : Nat) : Bool :=
  let inm_fail :=
    match req.ifNoneMatch with
    | some _ => !is_method_get_head req.method
    | none => false
  let if_match_block :=
    match req.ifMatch with
    | some ifMatch =>
      if check_if_match etag ifMatch then inm_fail else true
    | none => false
  let if_unmodified_block :=
    match req.ifUnmodifiedSince with
    | some since =>
      if check_if_unmodified_since lastModified since then inm_fail else true
    | none => false
  if_match_block || if_unmodified_block || inm_fail

/-- Rust `is_fresh` from `conditional_requests.rs`: `If-None-Match` takes
precedence over `If-Modified-Since`; with neither header the resource is not
fresh. -/
def is_fresh (req : Request) (etag : EntityTag) (lastModified : Nat) : Bool :=
  match req.ifNoneMatch with
  | some ifNoneMatch => !check_if_none_match etag ifNoneMatch
  | none =>
    match req.ifModifiedSince with
    | some since => !check_if_modified_since lastModified since
    | none => false

/-- Claim C1 counterexample: a POST request whose `If-None-Match` weak-matches
the ETag is fresh, yet `is_precondition_failed` also returns true (step 3
fires on any non-GET/HEAD method with `If-None-Match` present), so
`is_fresh implies not is_precondition_failed` fails as stated. -/
theorem c1_counterexample :
    is_fresh
      (Request.mk .post none (some (.items [EntityTag.mk false ("x")])) none none)
      (EntityTag.mk false ("x")) 0 = true ∧
    is_precondition_failed
      (Request.mk .post none (some (.items [EntityTag.mk false ("x")])) none none)
      (EntityTag.mk false ("x")) 0 = true := by
  constructor <;> decide

/-- Claim C1 (amended): for a GET or HEAD request that carries neither
`If-Match` nor `If-Unmodified-Since`, freshness implies that the
precondition check cannot fail. -/
theorem c1_fresh_not_failed (req : Request) (etag : EntityTag) (lm : Nat)
    (hm : is_method_get_head req.method = true)
    (him : req.ifMatch = none)
    (hius : req.ifUnmodifiedSince = none)
    (hf : is_fresh req etag lm = true) :
    is_precondition_failed req etag lm = false := by
  cases h : req.ifNoneMatch <;>
    simp [is_precondition_failed, him, hius, hm, h]

/-- Claim C1 witness: the amended theorem applied to a concrete fresh GET
request. -/
theorem c1_fresh_not_failed_witness :
    is_precondition_failed
      (Request.mk .get none (some (.items [EntityTag.mk false ("a")])) none none)
      (EntityTag.mk false ("a")) 0 = false :=
  c1_fresh_not_failed
    (Request.mk .get none (some (.items [EntityTag.mk false ("a")])) none none)
    (EntityTag.mk false ("a")) 0 (by decide) (by decide) (by decide) (by decide)

/-- Claim C2 counterexample: POST request, `If-Match` and
`If-Unmodified-Since` absent, with an `If-None-Match` whose only tag does
NOT weak-match the ETag (`check_if_none_match` succeeds, i.e. all tags
weak-differ); the claim says `is_precondition_failed` must then be false,
but the code returns true because it only tests presence. -/
theorem c2_counterexample :
    is_precondition_failed
      (Request.mk .post none (some (.items [EntityTag.mk false ("world")])) none none)
      (EntityTag.mk false ("hello")) 0 = true ∧
    check_if_none_match (EntityTag.mk false ("hello"))
      (.items [EntityTag.mk false ("world")]) = true := by
  constructor <;> decide

/-- Claim C2 (amended): for a non-GET/HEAD request with `If-Match` and
`If-Unmodified-Since` absent, `is_precondition_failed` is true exactly when
`If-None-Match` is present, regardless of whether it weak-matches. -/
theorem c2_presence_only (req : Request) (etag : EntityTag) (lm : Nat)
    (hm : is_method_get_head req.method = false)
    (him : req.ifMatch = none)
    (hius : req.ifUnmodifiedSince = none) :
    is_precondition_failed req etag lm = req.ifNoneMatch.isSome := by
  cases h : req.ifNoneMatch <;>
    simp [is_precondition_failed, him, hius, hm, h]

/-- Claim C2 witness: the amended theorem applied to a concrete POST request
carrying a non-matching `If-None-Match`. -/
theorem c2_presence_only_witness :
    is_precondition_failed
      (Request.mk .post none (some (.items [EntityTag.mk false ("world")])) none none)
      (EntityTag.mk false ("hello")) 0 =
      (some (IfNoneMatch.items [EntityTag.mk false ("world")])).isSome :=
  c2_presence_only
    (Request.mk .post none (some (.items [EntityTag.mk false ("world")])) none none)
    (EntityTag.mk false ("hello")) 0 (by decide) (by decide) (by decide)

/-! Rust `str` primitives

The Rust code manipulates `&str` values with the standard-library methods
`trim`, `trim_start`, `trim_end`, `split`, `split_terminator` and
`trim_start_matches`.  They are modelled here over the character list of the
string so that everything evaluates inside the kernel. -/

/-- Model of `str::trim_start` on the character list. -/
def trimLeftChars : List Char → List Char
  | [] => []
  | c :: r => if c.isWhitespace then trimLeftChars r else c :: r

/-- Model of `str::trim_end` on the character list. -/
def trimRightChars (l : List Char) : List Char :=
  (trimLeftChars l.reverse).reverse

/-- Model of `str::trim`. -/
def strTrim (s : String) : String :=
  String.mk (trimRightChars (trimLeftChars s.data))

/-- Model of `str::trim_start`. -/
def strTrimLeft (s : String) : String :=
  String.mk (trimLeftChars s.data)

/-- Model of `str::trim_end`. -/
def strTrimRight (s : String) : String :=
  String.mk (trimRightChars s.data)

/-- Model of `str::starts_with` for a string pattern. -/
def strStartsWith (s pat : String) : Bool :=
  pat.data.isPrefixOf s.data

/-- Model of `str::split` with a `char` separator: splitting an empty string
yields one empty piece, every separator occurrence opens a new piece. -/
def splitChar (sep : Char) : List Char → List (List Char)
  | [] => [[]]
  | c :: r =>
    let rest := splitChar sep r
    if c = sep then [] :: rest
    else
      match rest with
      | h :: t => (c :: h) :: t
      | [] => [[c]]

/-- Model of `str::split` with a `char` separator, at the string level. -/
def strSplitChar (sep : Char) (s : String) : List String :=
  (splitChar sep s.data).map String.mk

/-- Model of `str::split_terminator` with a `char` separator: as `split`,
except a trailing empty piece (produced when the string is empty or ends
with the separator) is dropped. -/
def strSplitTerm (sep : Char) (s : String) : List String :=
  let ps := strSplitChar sep s
  if ps.getLast? == some ("") then ps.dropLast else ps

/-- Fuel-driven loop for `str::trim_start_matches`: repeatedly drop the
pattern while it is a non-empty prefix.  The fuel is the length of the
subject, which bounds the number of drops. -/
def dropPatLoop (pat : List Char) : Nat → List Char → List Char
  | 0, l => l
  | fuel + 1, l =>
    if pat.isPrefixOf l && !pat.isEmpty then
      dropPatLoop pat fuel (l.drop pat.length)
    else l

/-- Model of `str::trim_start_matches` for a string pattern. -/
def strTrimStartMatches (s pat : String) : String :=
  String.mk (dropPatLoop pat.data s.data.length s.data)

/-! Content-encoding negotiation (src/http/content_encoding.rs)

Floating-point parsing is kept abstract: the oracle `parseScaledF32 s`
stands for the Rust pipeline `s.parse::<f32>().ok().map(|num| (num *
1000.0) as u32)` — `none` when the `f32` parse fails, otherwise the scaled
and truncated quality value. -/

/-- Constant `IDENTITY`. -/
def IDENTITY : String := "identity"

/-- Constant `DEFLATE`. -/
def DEFLATE : String := "deflate"

/-- Constant `GZIP`. -/
def GZIP : String := "gzip"

/-- Constant `BR`. -/
def BR : String := "br"

/-- The `Encoding` enum; the variant order is the intrinsic rank used as the
sorting tie-breaker. -/
inductive Encoding where
  | identity
  | deflate
  | gzip
  | brotli
  deriving DecidableEq, Repr

/-- Variant rank of `Encoding`, realising the derived `Ord` instance. -/
def Encoding.rank : Encoding → Nat
  | .identity => 0
  | .deflate => 1
  | .gzip => 2
  | .brotli => 3

/-- Rust `From<&str> for Encoding`: unknown tokens map to `Identity`. -/
def encodingFromStr (s : String) : Encoding :=
  if s = DEFLATE then .deflate
  else if s = GZIP then .gzip
  else if s = BR then .brotli
  else .identity

/-- Rust `encoding_to_static_str`: normalise a token to one of the four constant
strings. -/
def encoding_to_static_str (encoding : String) : String :=
  if encoding = DEFLATE then DEFLATE
  else if encoding = GZIP then GZIP
  else if encoding = BR then BR
  else IDENTITY

/-- Rust `QualityValue`: a content-encoding token and its weight in `0..=1000`. -/
structure QualityValue where
  content : String
  weight : Nat
  deriving DecidableEq, Repr

/-- Rust `sort_encoding`: compare by weight first, then by the intrinsic
`Encoding` rank of the token. -/
def sort_encoding (a b : QualityValue) : Ordering :=
  (compare a.weight b.weight).then
    (compare (encodingFromStr a.content).rank (encodingFromStr b.content).rank)

/-- Rust `parse_qvalue`: trim the entry, split at `;` keeping at most two tokens;
the first token (right-trimmed) is the content; the second token, after
left-trimming and stripping `q=` prefixes, goes through the `f32` parse
oracle, defaulting to `1000` when absent and to `0` when unparseable or
greater than `1000`. -/
def parse_qvalue (parseScaledF32 : String → Option Nat) (q : String) :
    Option QualityValue :=
  match (strSplitTerm (';') (strTrim q)).take 2 with
  | [] => none
  | content :: rest =>
    let weight :=
      match rest with
      | s :: _ =>
        match parseScaledF32 (strTrimStartMatches (strTrimLeft s) ("q=")) with
        | some v => if v ≤ 1000 then v else 0
        | none => 0
      | [] => 1000
    some (QualityValue.mk (strTrimRight content) weight)

/-- Ascending insertion by the `sort_encoding` comparator. -/
def insertByCmp (a : QualityValue) : List QualityValue → List QualityValue
  | [] => [a]
  | b :: t =>
    if sort_encoding a b = Ordering.gt then b :: insertByCmp a t
    else a :: b :: t

/-- Model of `Vec::sort_unstable_by(sort_encoding)`: an ascending sort by the
comparator.  `sort_unstable_by` leaves the order of comparator-ties
unspecified; ties here have equal weight and equal `Encoding` rank, so
`get_prior_encoding` maps them to the same static string and the tie order
cannot be observed. -/
def sortByCmp (l : List QualityValue) : List QualityValue :=
  l.foldr insertByCmp []

/-- Rust `get_prior_encoding`: split `Accept-Encoding` at commas, parse each entry,
sort ascending by `(weight, rank)` and return the last (highest-priority)
entry's token normalised to a static string; `identity` when nothing parsed.
The header value is assumed to be valid UTF-8 (`to_str().ok()` succeeded). -/
def get_prior_encoding (parseScaledF32 : String → Option Nat)
    (acceptEncoding : String) : String :=
  match (sortByCmp ((strSplitChar (',') acceptEncoding).filterMap
      (parse_qvalue parseScaledF32))).getLast? with
  | some q => encoding_to_static_str q.content
  | none => IDENTITY

/-- Rust `should_compress`: every normalised encoding other than `identity` is
compressed. -/
def should_compress (enc : String) : Bool :=
  IDENTITY != enc

/-- Claim C3 (code bug): for any faithful float oracle — which must send the
literal `0` to a scaled weight of `0` — the header `gzip;q=0` consists of a
single entry of weight `0`, i.e. no acceptable encoding, yet
`get_prior_encoding` answers `gzip` instead of `identity`: zero-weight
entries are never filtered out, contradicting the function's own
documentation (a quality value of `0` means unacceptable, highest non-zero
qvalue preferred) and the specification. -/
theorem c3_zero_weight_wins (parseScaledF32 : String → Option Nat)
    (h : parseScaledF32 ("0") = some 0) :
    get_prior_encoding parseScaledF32 ("gzip;q=0") = GZIP ∧
    should_compress (get_prior_encoding parseScaledF32 ("gzip;q=0")) = true := by
  have hq : parse_qvalue parseScaledF32 ("gzip;q=0") =
      some (QualityValue.mk ("gzip")
        (match parseScaledF32 ("0") with
         | some v => if v ≤ 1000 then v else 0
         | none => 0)) := rfl
  rw [h] at hq
  norm_num at hq
  have hmain : get_prior_encoding parseScaledF32 ("gzip;q=0") = GZIP := by
    unfold get_prior_encoding
    rw [show strSplitChar (',') ("gzip;q=0") = [("gzip;q=0")] from rfl]
    rw [List.filterMap_cons, List.filterMap_nil, hq]
    rfl
  exact ⟨hmain, by rw [hmain]; rfl⟩

/-- Claim C3 witness: the code-bug theorem applied to a concrete float
oracle defined only at the literal `0`. -/
theorem c3_zero_weight_wins_witness :
    get_prior_encoding (fun s => if s = ("0") then some 0 else none)
      ("gzip;q=0") = GZIP ∧
    should_compress (get_prior_encoding
      (fun s => if s = ("0") then some 0 else none) ("gzip;q=0")) = true :=
  c3_zero_weight_wins (fun s => if s = ("0") then some 0 else none) (by simp)

/-! Range requests (src/http/range_requests.rs)

A byte-range-spec bound from the request `Range` header is `some n` for
`Bound::Included(n)` and `none` for `Bound::Unbounded`; wire-format byte
ranges produce no `Excluded` bounds.  Values are u64 byte positions, and
`saturating_sub` becomes truncated `Nat` subtraction, which is the same
operation. -/

/-- Response `Content-Range: bytes first-last/completeLength`. -/
structure ContentRange where
  first : Nat
  last : Nat
  completeLength : Nat
  deriving DecidableEq, Repr

/-- Model of the third-party `headers::ContentRange::bytes` constructor (an
external collaborator of this crate): the start bound is inclusive, an
included end bound `e` means an exclusive end of `e + 1`, an unbounded end
resolves to the complete length, and construction fails (`Err`, i.e. `none`
after `.ok()`) on an empty resulting range. -/
def contentRangeBytes (start : Nat) (endBound : Option Nat)
    (completeLength : Nat) : Option ContentRange :=
  let endExclusive :=
    match endBound with
    | some e => e + 1
    | none => completeLength
  if start < endExclusive then
    some (ContentRange.mk start (endExclusive - 1) completeLength)
  else none

/-- Rust `is_satisfiable_range`: reject multi-segment ranges, then convert the
single byte-range-spec to a `Content-Range` when satisfiable. -/
def is_satisfiable_range (range : List (Option Nat × Option Nat))
    (completeLength : Nat) : Option ContentRange :=
  match range with
  | [] => none
  | _ :: _ :: _ => none
  | [bounds] =>
    match bounds with
    | (some start, some e) =>
      if start ≤ e ∧ start < completeLength then
        contentRangeBytes start (some (min e (completeLength - 1)))
          completeLength
      else none
    | (some start, none) =>
      if start < completeLength then
        contentRangeBytes start none completeLength
      else none
    | (none, some e) =>
      if 0 < e then
        contentRangeBytes (completeLength - e) none completeLength
      else none
    | (none, none) => none

/-- Claim C4 counterexample: the single range `7..=19` against a complete
length of `10` has `end ≥ complete_length`, so it falls outside every case
the claim maps to `Some`, yet the code accepts it and clamps the end to
`9`. -/
theorem c4_counterexample :
    is_satisfiable_range [(some 7, some 19)] 10 =
      some (ContentRange.mk 7 9 10) ∧ ¬(19 < 10) := by
  constructor <;> decide

/-- Claim C4 (amended): for a positive complete length, the conversion is
exactly: multi-range or empty → none; `start..=e` with `start ≤ e` and
`start < completeLength` (the end may reach past the entity; it is clamped)
→ bytes `start ..= min e (completeLength - 1)`; `start..` with
`start < completeLength` → bytes `start ..= completeLength - 1`; suffix
`..=e` with `e > 0` → the last `min e completeLength` bytes; anything else →
none. -/
theorem c4_satisfiable_range_cases (range : List (Option Nat × Option Nat))
    (cl : Nat) (hcl : 1 ≤ cl) :
    is_satisfiable_range range cl =
      match range with
      | [(some s, some e)] =>
        if s ≤ e ∧ s < cl then some (ContentRange.mk s (min e (cl - 1)) cl)
        else none
      | [(some s, none)] =>
        if s < cl then some (ContentRange.mk s (cl - 1) cl) else none
      | [(none, some e)] =>
        if 0 < e then some (ContentRange.mk (cl - min e cl) (cl - 1) cl)
        else none
      | _ => none := by
  rcases range with _ | ⟨⟨p, q⟩, _ | ⟨r, t⟩⟩
  · rfl
  · cases p <;> cases q
    · rfl
    · next e =>
      simp only [is_satisfiable_range, contentRangeBytes]
      split
      · next hg =>
        have hlt : cl - e < cl := by omega
        have hmin : cl - e = cl - min e cl := by omega
        rw [if_pos hlt, hmin]
      · rfl
    · next s =>
      simp only [is_satisfiable_range, contentRangeBytes]
      split
      · next hg => simp [hg]
      · rfl
    · next s e =>
      simp only [is_satisfiable_range, contentRangeBytes]
      split
      · next hg =>
        have hlt : s < min e (cl - 1) + 1 := by omega
        simp [hlt]
      · rfl
  · cases p <;> cases q <;> rfl

/-- Claim C4 witness: the amended case analysis applied to the concrete
satisfiable range `4..=6` of an entity of `10` bytes. -/
theorem c4_satisfiable_range_cases_witness :
    is_satisfiable_range [(some 4, some 6)] 10 =
      some (ContentRange.mk 4 6 10) := by
  have h := c4_satisfiable_range_cases [(some 4, some 6)] 10 (by decide)
  simpa using h

/-! Body sender `send_file_with_range` (src/server/send.rs)

The file content is the byte list `content`; `start` and `e` are the
inclusive range bounds (u64 values, so `< 2^64`).  The returned stream is
modelled by the byte list it yields when drained: the `FileStream` reads the
`BufReader::take`-limited reader in 4096-byte chunks, which concatenates
back to exactly `take` of `drop`.  Opening, metadata and seeking are assumed
to succeed (the claims quantify over existing readable files); seeking past
the end of the file simply makes every read return 0 bytes.  u64 arithmetic
wraps exactly where Rust release-mode arithmetic wraps: in `len - 1` when
the file is empty, and in `end - start + 1` when it equals `2^64`. -/

/-- u64 modulus. -/
def U64_MOD : Nat := 2 ^ 64

/-- Wrapping u64 subtraction of one, for an operand `< 2^64`. -/
def u64SubOne (n : Nat) : Nat :=
  (n + (U64_MOD - 1)) % U64_MOD

/-- Result of `send_file_with_range`: the `io::ErrorKind::InvalidInput`
rejection, or the drained byte stream together with the size hint. -/
inductive SendResult where
  | invalidInput
  | ok (streamed : List Nat) (size : Nat)
  deriving DecidableEq, Repr

/-- Rust `send_file_with_range`: reject `end < start`; otherwise seek to `start`,
limit the reader to `end - start + 1` bytes, and compute the size hint from
`max_end = len - 1`. -/
def send_file_with_range (content : List Nat) (start e : Nat) : SendResult :=
  if e < start then .invalidInput
  else
    let maxEnd := u64SubOne content.length
    let takeCount := (e - start + 1) % U64_MOD
    let streamed := (content.drop start).take takeCount
    let size := if start > maxEnd then 0 else min e maxEnd - start + 1
    .ok streamed size

/-- Claim C5 counterexample: on the repository's 8-byte test file
`01234567`, the range `(7, 65535)` streams a single byte (and reports a
size hint of 1), not the `65535 - 7 + 1` bytes the claim promises for every
`start ≤ end`; the stream is truncated at the end of the file. -/
theorem c5_counterexample :
    send_file_with_range [48, 49, 50, 51, 52, 53, 54, 55] 7 65535 =
      .ok [55] 1 ∧ 65535 - 7 + 1 ≠ 1 := by
  constructor <;> decide

/-- Claim C5 (amended): an `InvalidInput` error occurs exactly when
`start > end`; otherwise the streamed bytes number
`min (end - start + 1) (size - start)` — exactly `end - start + 1` only
when `end` lies inside the file — and each streamed byte `i` is byte
`start + i` of the file (so for `start ≤ end < size` the stream is exactly
bytes `start..=end`).  The wrap guard excludes only the degenerate
`start = 0, end = 2^64 - 1` u64 overflow of the take limit. -/
theorem c5_range_stream (content : List Nat) (start e : Nat)
    (hwrap : e - start + 1 < U64_MOD) :
    (send_file_with_range content start e = .invalidInput ↔ e < start) ∧
    (∀ streamed size,
      send_file_with_range content start e = .ok streamed size →
      streamed.length = min (e - start + 1) (content.length - start) ∧
      ∀ i, i < streamed.length → streamed[i]? = content[start + i]?) := by
  rcases Nat.lt_or_ge e start with he | he
  · have hres : send_file_with_range content start e = .invalidInput := by
      simp [send_file_with_range, he]
    refine ⟨by simp [hres, he], ?_⟩
    intro streamed size h
    rw [hres] at h
    exact absurd h (by simp)
  · have hres : send_file_with_range content start e =
        .ok ((content.drop start).take (e - start + 1))
          (if start > u64SubOne content.length then 0
           else min e (u64SubOne content.length) - start + 1) := by
      simp [send_file_with_range, Nat.not_lt.mpr he, Nat.mod_eq_of_lt hwrap]
    constructor
    · rw [hres]
      constructor
      · intro h; exact absurd h (by simp)
      · intro h; omega
    · intro streamed size h
      rw [hres] at h
      injection h with h1 h2
      constructor
      · rw [← h1]
        simp [List.length_take, List.length_drop]
      · intro i hi
        rw [← h1] at hi ⊢
        have hlt : i < e - start + 1 := by
          simp [List.length_take] at hi
          omega
        rw [List.getElem?_take, if_pos hlt, List.getElem?_drop]

/-- Claim C5 witness: the amended theorem's error characterisation at the
concrete reversed range `(1, 0)`. -/
theorem c5_range_stream_witness :
    send_file_with_range [48, 49, 50] 1 0 = .invalidInput ↔ 0 < 1 :=
  (c5_range_stream [48, 49, 50] 1 0 (by decide)).1

/-- Claim C9: for a non-empty file and `start ≤ end`, the call succeeds and
its size hint is `min end (n - 1) - start + 1` when `start ≤ n - 1` and `0`
when `start > n - 1`; non-emptiness keeps the internal u64 computation
`n - 1` from wrapping. -/
theorem c9_size_hint (content : List Nat) (start e : Nat)
    (hn : 1 ≤ content.length) (hlen : content.length < U64_MOD)
    (hse : start ≤ e) :
    send_file_with_range content start e =
      .ok ((content.drop start).take ((e - start + 1) % U64_MOD))
        (if start ≤ content.length - 1
         then min e (content.length - 1) - start + 1
         else 0) := by
  have h2 : U64_MOD = 18446744073709551616 := by norm_num [U64_MOD]
  have hmax : u64SubOne content.length = content.length - 1 := by
    rw [u64SubOne, h2]
    rw [h2] at hlen
    omega
  have hres : send_file_with_range content start e =
      .ok ((content.drop start).take ((e - start + 1) % U64_MOD))
        (if start > u64SubOne content.length then 0
         else min e (u64SubOne content.length) - start + 1) := by
    simp [send_file_with_range, Nat.not_lt.mpr hse]
  rw [hres, hmax]
  have hsz : (if start > content.length - 1 then (0 : Nat)
      else min e (content.length - 1) - start + 1) =
      (if start ≤ content.length - 1
       then min e (content.length - 1) - start + 1 else 0) := by
    by_cases hc : start ≤ content.length - 1
    · rw [if_neg (by omega), if_pos hc]
    · rw [if_pos (by omega), if_neg hc]
  rw [hsz]

/-- Claim C9 witness: the size-hint theorem at the concrete 8-byte file and
range `(1, 4)`. -/
theorem c9_size_hint_witness :
    send_file_with_range [48, 49, 50, 51, 52, 53, 54, 55] 1 4 =
      .ok (([48, 49, 50, 51, 52, 53, 54, 55].drop 1).take ((4 - 1 + 1) % U64_MOD))
        (if 1 ≤ [48, 49, 50, 51, 52, 53, 54, 55].length - 1
         then min 4 ([48, 49, 50, 51, 52, 53, 54, 55].length - 1) - 1 + 1
         else 0) :=
  c9_size_hint [48, 49, 50, 51, 52, 53, 54, 55] 1 4 (by decide) (by decide)
    (by decide)

/-! ETag construction (src/server/serve.rs, DownloadFile branch)

`format!(r#""{}-{}""#, mtime.timestamp(), size)`: the decimal rendering of
the whole-second mtime and of the byte size, joined by a hyphen inside
literal double quotes.  `SystemTimeExt::timestamp` yields u64 seconds
(pre-epoch times clamp to 0), `size` is the u64 metadata length. -/

/-- The ETag string built in the `DownloadFile` branch. -/
def etag_string (mtimeSecs size : Nat) : String :=
  "\"" ++ (toString mtimeSecs ++ ("-" ++ (toString size ++ "\"")))

/-- Claim C6: the emitted ETag is exactly `"<mtime_secs>-<size>"` including
the surrounding double quotes; its first character is `"` and not `W`, so
the `headers` parser reads it as a strong validator; and two files with
identical `(mtime_secs, size)` get byte-identical ETags. -/
theorem c6_etag_strong_deterministic (m s m2 s2 : Nat)
    (hm : m = m2) (hs : s = s2) :
    etag_string m s = "\"" ++ (toString m ++ ("-" ++ (toString s ++ "\""))) ∧
    (etag_string m s).data.head? = some ('"') ∧
    etag_string m s = etag_string m2 s2 := by
  refine ⟨rfl, ?_, by rw [hm, hs]⟩
  rw [show etag_string m s =
      "\"" ++ (toString m ++ ("-" ++ (toString s ++ "\""))) from rfl]
  rw [String.data_append]
  rfl

/-- Claim C6 witness: the theorem at the concrete validator pair
`(1632, 8)`. -/
theorem c6_etag_strong_deterministic_witness :
    etag_string 1632 8 =
      "\"" ++ (toString 1632 ++ ("-" ++ (toString 8 ++ "\""))) ∧
    (etag_string 1632 8).data.head? = some ('"') ∧
    etag_string 1632 8 = etag_string 1632 8 :=
  c6_etag_strong_deterministic 1632 8 1632 8 rfl rfl

/-! MIME selection (src/server/serve.rs, `guess_path_mime`)

A MIME type is modelled by its top-level type, subtype, and the optional
`charset` parameter — the only parameter the function inspects.  The
third-party `mime_guess` database and the crate's `MimeExt::guess_charset`
are passed in as oracles; the `format!("{}; charset={}", ..).parse().ok()`
round-trip (which succeeds on every value the code produces) is modelled as
attaching the charset parameter. -/

/-- MIME type: type, subtype, optional `charset` parameter. -/
structure MimeType where
  mainType : String
  subType : String
  charset : Option String
  deriving DecidableEq, Repr

/-- Constant `mime::TEXT_HTML_UTF_8`. -/
def TEXT_HTML_UTF_8 : MimeType :=
  MimeType.mk ("text") ("html") (some ("utf-8"))

/-- Constant `mime::TEXT_PLAIN_UTF_8`. -/
def TEXT_PLAIN_UTF_8 : MimeType :=
  MimeType.mk ("text") ("plain") (some ("utf-8"))

/-- Constant `mime::APPLICATION_OCTET_STREAM`. -/
def APPLICATION_OCTET_STREAM : MimeType :=
  MimeType.mk ("application") ("octet-stream") none

/-- The per-request `Action`. -/
inductive Action where
  | downloadZip
  | listDir
  | downloadFile
  deriving DecidableEq, Repr

/-- Rust `InnerService::guess_path_mime`: consult the extension guess first; if it
carries no charset parameter, try to attach a guessed charset; only when no
guess exists fall back to the per-action default. -/
def guess_path_mime (mimeGuess : String → Option MimeType)
    (guessCharset : MimeType → Option String)
    (path : String) (action : Action) : MimeType :=
  match mimeGuess path with
  | some x =>
    match x.charset with
    | some _ => x
    | none =>
      match guessCharset x with
      | some c => MimeType.mk x.mainType x.subType (some c)
      | none => x
  | none =>
    match action with
    | .listDir => TEXT_HTML_UTF_8
    | .downloadFile => TEXT_PLAIN_UTF_8
    | .downloadZip => APPLICATION_OCTET_STREAM

/-- Claim C7 counterexample: the extension guess is consulted for every
action, not only `DownloadFile`.  On the path `lib.wasm` the `mime_guess`
oracle answers `application/wasm` with no guessable charset — exactly the
values the repository's own `guess_path_mime` test asserts — so a `ListDir`
request for a directory of that name gets MIME `application/wasm`, not the
`text/html; charset=utf-8` the claim promises for `ListDir`. -/
theorem c7_counterexample :
    guess_path_mime
      (fun p => if p = ("lib.wasm")
        then some (MimeType.mk ("application") ("wasm") none) else none)
      (fun _ => none) ("lib.wasm") .listDir =
      MimeType.mk ("application") ("wasm") none ∧
    MimeType.mk ("application") ("wasm") none ≠ TEXT_HTML_UTF_8 := by
  constructor <;> decide

/-- Claim C7 (amended): when no extension guess exists the action default
applies — `ListDir` gets `text/html; charset=utf-8`, `DownloadFile`
`text/plain; charset=utf-8`, `DownloadZip` `application/octet-stream`; when
a guess exists, its type and subtype are served regardless of the action
(the only possible adjustment is attaching a charset parameter). -/
theorem c7_mime_by_guess_then_action (mimeGuess : String → Option MimeType)
    (guessCharset : MimeType → Option String) (path : String)
    (action : Action) :
    (mimeGuess path = none →
      guess_path_mime mimeGuess guessCharset path action =
        match action with
        | .listDir => TEXT_HTML_UTF_8
        | .downloadFile => TEXT_PLAIN_UTF_8
        | .downloadZip => APPLICATION_OCTET_STREAM) ∧
    (∀ x, mimeGuess path = some x →
      (guess_path_mime mimeGuess guessCharset path action).mainType =
        x.mainType ∧
      (guess_path_mime mimeGuess guessCharset path action).subType =
        x.subType) := by
  constructor
  · intro h
    simp [guess_path_mime, h]
  · intro x h
    cases hc : x.charset <;>
      cases hg : guessCharset x <;>
        simp [guess_path_mime, h, hc, hg]

/-- Claim C7 witness: the default branch of the amended theorem at a path
with no extension guess and the `DownloadZip` action. -/
theorem c7_mime_by_guess_then_action_witness :
    guess_path_mime (fun _ => none) (fun _ => none) ("d") .downloadZip =
      APPLICATION_OCTET_STREAM :=
  (c7_mime_by_guess_then_action (fun _ => none) (fun _ => none) ("d")
    .downloadZip).1 rfl

/-! Access log sink (src/http/loggable.rs, `LoggableBody::poll_data`)

The body is wrapped in a `LoggableBody`; each call of `poll_data` returns a
data chunk (`Some(Ok(b))`, carrying `b.remaining()` bytes), an error chunk
(`Some(Err(_))`), or the end of the stream (`None`).  The state is the
accumulated `bytes_sent`, the optional `content_length`, and whether a
`Log` record is attached.  The atomics are polled from a single task, so
sequential state passing models them exactly. -/

/-- One event observed by `poll_data`. -/
inductive PollEvent where
  | chunk (size : Nat)
  | errChunk
  | eos
  deriving DecidableEq, Repr

/-- State of a `LoggableBody`. -/
structure LogState where
  bytesSent : Nat
  contentLength : Option Nat
  hasLog : Bool
  deriving DecidableEq, Repr

/-- Rust `poll_data`: add the chunk bytes to `bytes_sent`; compute `has_data`
(false at end of stream, or — with a content length set — once the
accumulated count is no longer below it); when `has_data` is false and a
log is attached, a line is printed (the returned flag). -/
def poll_data (st : LogState) (ev : PollEvent) : LogState × Bool :=
  let bytes :=
    match ev with
    | .chunk size => st.bytesSent + size
    | .errChunk => st.bytesSent
    | .eos => st.bytesSent
  let hasData :=
    match ev with
    | .eos => false
    | _ =>
      match st.contentLength with
      | some l => decide (bytes < l)
      | none => true
  ({ st with bytesSent := bytes }, !hasData && st.hasLog)

/-- Drive `poll_data` over a list of events, counting printed log lines. -/
def pollRun (st : LogState) : List PollEvent → LogState × Nat
  | [] => (st, 0)
  | ev :: rest =>
    let out := poll_data st ev
    let next := pollRun out.1 rest
    (next.1, (if out.2 then 1 else 0) + next.2)

/-- The claim's notion of stream termination at a poll: the explicit end of
stream, or — when a content length is set — the observation of at least
that many bytes. -/
def observes_termination (st : LogState) (ev : PollEvent) : Bool :=
  match ev with
  | .eos => true
  | .chunk size =>
    match st.contentLength with
    | some l => decide (l ≤ st.bytesSent + size)
    | none => false
  | .errChunk =>
    match st.contentLength with
    | some l => decide (l ≤ st.bytesSent)
    | none => false

/-- No event of the list observes termination, starting from `st`. -/
def no_early_termination (st : LogState) : List PollEvent → Bool
  | [] => true
  | ev :: rest =>
    !observes_termination st ev &&
      no_early_termination (poll_data st ev).1 rest

/-- Total bytes carried by the data chunks of an event list. -/
def chunkBytes : List PollEvent → Nat
  | [] => 0
  | .chunk size :: rest => size + chunkBytes rest
  | _ :: rest => chunkBytes rest

/-- Rust `chunkBytes` distributes over append. -/
theorem chunkBytes_append (a b : List PollEvent) :
    chunkBytes (a ++ b) = chunkBytes a + chunkBytes b := by
  induction a with
  | nil => simp [chunkBytes]
  | cons ev rest ih => cases ev <;> simp [chunkBytes, ih] <;> omega

/-- Boolean form of `Nat.not_lt`. -/
theorem not_decide_lt (a b : Nat) : (!decide (a < b)) = decide (b ≤ a) := by
  by_cases h : a < b <;> simp [h] <;> omega

/-- A poll prints a line exactly when it observes termination and a log is
attached. -/
theorem poll_data_emit_eq (st : LogState) (ev : PollEvent) :
    (poll_data st ev).2 = (observes_termination st ev && st.hasLog) := by
  cases ev <;> cases h : st.contentLength <;>
    simp [poll_data, observes_termination, h, not_decide_lt]

/-- Rust `poll_data` never changes the content length or the log attachment. -/
theorem poll_data_preserves (st : LogState) (ev : PollEvent) :
    (poll_data st ev).1.contentLength = st.contentLength ∧
    (poll_data st ev).1.hasLog = st.hasLog := by
  cases ev <;> simp [poll_data]

/-- Running accumulates exactly the chunk bytes. -/
theorem pollRun_bytes (evs : List PollEvent) (st : LogState) :
    (pollRun st evs).1.bytesSent = st.bytesSent + chunkBytes evs := by
  induction evs generalizing st with
  | nil => simp [pollRun, chunkBytes]
  | cons ev rest ih =>
    cases ev <;>
      simp [pollRun, chunkBytes, ih, poll_data] <;> omega

/-- A run with no termination observation prints nothing and keeps the
state fields. -/
theorem pollRun_no_term (evs : List PollEvent) (st : LogState)
    (h : no_early_termination st evs = true) :
    (pollRun st evs).2 = 0 ∧
    (pollRun st evs).1.contentLength = st.contentLength ∧
    (pollRun st evs).1.hasLog = st.hasLog := by
  induction evs generalizing st with
  | nil => simp [pollRun]
  | cons ev rest ih =>
    simp only [no_early_termination, Bool.and_eq_true, Bool.not_eq_true'] at h
    obtain ⟨hterm, hrest⟩ := h
    obtain ⟨hcnt, hcl, hlog⟩ := ih (poll_data st ev).1 hrest
    have hemit : (poll_data st ev).2 = false := by
      rw [poll_data_emit_eq, hterm]
      rfl
    obtain ⟨hpcl, hplog⟩ := poll_data_preserves st ev
    refine ⟨?_, ?_, ?_⟩
    · simp [pollRun, hemit, hcnt]
    · simp [pollRun, hcl, hpcl]
    · simp [pollRun, hlog, hplog]

/-- Claim C8: start a logged body (`log` attached, `bytes_sent = 0`) with
any content length setting; poll it to completion, i.e. through a sequence
of polls none of which observes termination, followed by one poll that does
(the explicit end of stream, or the poll whose chunk reaches the content
length).  Exactly one log line is printed over the whole run — at that
final poll, never zero and never more than one — and the accumulated count
equals the total bytes of the chunks observed. -/
theorem c8_one_log_line_at_termination (cl : Option Nat)
    (body : List PollEvent) (lastEv : PollEvent)
    (hbody : no_early_termination (LogState.mk 0 cl true) body = true)
    (hlast : observes_termination (pollRun (LogState.mk 0 cl true) body).1
      lastEv = true) :
    (pollRun (LogState.mk 0 cl true) (body ++ [lastEv])).2 = 1 ∧
    (pollRun (LogState.mk 0 cl true) (body ++ [lastEv])).1.bytesSent =
      chunkBytes (body ++ [lastEv]) := by
  have hsplit : ∀ st : LogState, ∀ evs : List PollEvent,
      pollRun st (evs ++ [lastEv]) =
        ((poll_data (pollRun st evs).1 lastEv).1,
          (pollRun st evs).2 +
            (if (poll_data (pollRun st evs).1 lastEv).2 then 1 else 0)) := by
    intro st evs
    induction evs generalizing st with
    | nil => simp [pollRun]
    | cons ev rest ih => simp [pollRun, ih] <;> omega
  obtain ⟨hcnt, _, hlog⟩ := pollRun_no_term body (LogState.mk 0 cl true) hbody
  constructor
  · rw [hsplit]
    rw [poll_data_emit_eq, hlast, hlog, hcnt]
    rfl
  · rw [hsplit]
    have hb := pollRun_bytes body (LogState.mk 0 cl true)
    rw [chunkBytes_append]
    cases lastEv <;> simp [poll_data, chunkBytes, hb] <;> omega

/-- Claim C8 witness: a logged body with no content length, two chunks and
an explicit end of stream prints exactly one line and counts 5 bytes. -/
theorem c8_one_log_line_at_termination_witness :
    (pollRun (LogState.mk 0 none true)
      ([PollEvent.chunk 3, PollEvent.chunk 2] ++ [PollEvent.eos])).2 = 1 ∧
    (pollRun (LogState.mk 0 none true)
      ([PollEvent.chunk 3, PollEvent.chunk 2] ++ [PollEvent.eos])).1.bytesSent =
      chunkBytes ([PollEvent.chunk 3, PollEvent.chunk 2] ++ [PollEvent.eos]) :=
  c8_one_log_line_at_termination none [PollEvent.chunk 3, PollEvent.chunk 2]
    PollEvent.eos (by decide) (by decide)

/-! Request pipeline gates (src/server/serve.rs, src/extensions.rs)

Filesystem paths are modelled as their lists of normal components: the
percent-decoded request path split at slashes, and the configured root's
own components; `Path::join` of such paths is list concatenation, and the
`Component::Normal` filter of `is_relatively_hidden` is the identity on
them.  The filesystem itself (existence, directory test, the compiled
gitignore matcher, and the canonicalisation-based basepath test) is an
oracle.  The serving branches of `handle_request` are collapsed into a
single `served` outcome carrying the selected action; the claims settled
here concern only the gates that precede them. -/

/-- The configuration fields the gates consult. -/
structure SfzConfig where
  all : Bool
  ignore : Bool
  followLinks : Bool
  renderIndex : Bool
  root : List String
  pathPfx : Option (List String)
  deriving Repr

/-- Filesystem oracle. -/
structure FsOracle where
  pathExistsFs : List String → Bool
  isDir : List String → Bool
  gitignoreMatched : List String → Bool
  underBasepath : List String → Bool

/-- Rust `PathExt::is_relatively_hidden`: some component starts with a dot. -/
def is_relatively_hidden (p : List String) : Bool :=
  p.any (fun s => strStartsWith s ("."))

/-- Rust `InnerService::path_is_hidden`. -/
def path_is_hidden (cfg : SfzConfig) (p : List String) : Bool :=
  !cfg.all && is_relatively_hidden p

/-- Rust `InnerService::path_is_ignored`. -/
def path_is_ignored (cfg : SfzConfig) (fs : FsOracle) (p : List String) :
    Bool :=
  cfg.ignore && fs.gitignoreMatched p

/-- Rust `InnerService::path_exists`. -/
def path_exists (cfg : SfzConfig) (fs : FsOracle) (p : List String) : Bool :=
  fs.pathExistsFs p && !path_is_hidden cfg p && !path_is_ignored cfg fs p

/-- Rust `InnerService::strip_path_prefix`. -/
def strip_path_pfx (cfg : SfzConfig) (p : List String) :
    Option (List String) :=
  match cfg.pathPfx with
  | some pre => if pre.isPrefixOf p then some (p.drop pre.length) else none
  | none => some p

/-- Rust `InnerService::file_path_from_path` (percent decoding assumed to have
succeeded): strip the prefix, join onto the root, and append `index.html`
for directories under `--render-index`. -/
def file_path_from_path (cfg : SfzConfig) (fs : FsOracle)
    (reqPath : List String) : Option (List String) :=
  match strip_path_pfx cfg reqPath with
  | none => none
  | some stripped =>
    let p := cfg.root ++ stripped
    if cfg.renderIndex && fs.isDir p then some (p ++ [("index.html")])
    else some p

/-- Outcome of `InnerService::handle_request`, collapsed to the response
class; `bail!` paths surface as internal server errors (500) through
`call`. -/
inductive HandleOutcome where
  | notFound
  | forbidden
  | internalError
  | served (action : Action)
  deriving DecidableEq, Repr

/-- Rust `InnerService::handle_request` down to the action branch: resolve the
path (prefix mismatch is 404), select the action from the `?action=` query
value (an invalid value, or `zip` on a non-directory, bails out as 500 —
before the gates), then the visibility gate (404) and the escape gate
(403). -/
def handle_request (cfg : SfzConfig) (fs : FsOracle)
    (reqPath : List String) (queryAction : Option String) : HandleOutcome :=
  match file_path_from_path cfg fs reqPath with
  | none => .notFound
  | some p =>
    let chosen :=
      match queryAction with
      | some a =>
        if a = ("zip") then
          (if fs.isDir p then some Action.downloadZip else none)
        else none
      | none =>
        some (if fs.isDir p then Action.listDir else Action.downloadFile)
    match chosen with
    | none => .internalError
    | some action =>
      if !path_exists cfg fs p then .notFound
      else if !cfg.followLinks && !fs.underBasepath p then .forbidden
      else .served action

/-- Every resolved path extends the configured root. -/
theorem file_path_extends_root (cfg : SfzConfig) (fs : FsOracle)
    (reqPath : List String) (p : List String)
    (h : file_path_from_path cfg fs reqPath = some p) :
    ∃ rest, p = cfg.root ++ rest := by
  unfold file_path_from_path at h
  cases hs : strip_path_pfx cfg reqPath with
  | none => rw [hs] at h; exact absurd h (by simp)
  | some stripped =>
    rw [hs] at h
    dsimp only at h
    by_cases hd : (cfg.renderIndex && fs.isDir (cfg.root ++ stripped)) = true
    · rw [if_pos hd] at h
      injection h with h1
      exact ⟨stripped ++ [("index.html")], by rw [← h1, List.append_assoc]⟩
    · rw [if_neg hd] at h
      injection h with h1
      exact ⟨stripped, h1.symm⟩

/-- Claim C10 counterexample: with a dot-component root and `all = false`,
a request carrying an invalid `?action=` value is answered 500
(`internalError`), not 404 — the action check bails before the hidden
gate — so the claim's unconditional 404 fails, even though the joined path
is indeed classified hidden. -/
theorem c10_counterexample :
    handle_request
      (SfzConfig.mk false false false false [(".r")] none)
      (FsOracle.mk (fun _ => true) (fun _ => false) (fun _ => false)
        (fun _ => true))
      [("file.txt")] (some ("bogus")) = .internalError ∧
    HandleOutcome.internalError ≠ HandleOutcome.notFound ∧
    path_is_hidden (SfzConfig.mk false false false false [(".r")] none)
      ([(".r")] ++ [("file.txt")]) = true := by
  refine ⟨?_, by decide, by decide⟩
  rfl

/-- Claim C10 (amended): the hidden gate is evaluated on the full joined
path, root components included.  For every request whose `?action=` query
is absent or is a valid `zip` on a directory, when `all` is false and some
component of the configured root starts with a dot, the response is 404 —
regardless of the request-relative path, of the filesystem, and of
`render-index`; requests with any other action value short-circuit to 500
before this gate. -/
theorem c10_hidden_root_404 (cfg : SfzConfig) (fs : FsOracle)
    (reqPath : List String) (qa : Option String)
    (hall : cfg.all = false)
    (hroot : is_relatively_hidden cfg.root = true)
    (hq : qa = none ∨ (qa = some ("zip") ∧
      ∀ p, file_path_from_path cfg fs reqPath = some p →
        fs.isDir p = true)) :
    handle_request cfg fs reqPath qa = .notFound := by
  unfold handle_request
  cases hp : file_path_from_path cfg fs reqPath with
  | none => rfl
  | some p =>
    obtain ⟨rest, hrest⟩ := file_path_extends_root cfg fs reqPath p hp
    have hhid : path_is_hidden cfg p = true := by
      rw [hrest]
      unfold path_is_hidden is_relatively_hidden
      rw [hall, List.any_append]
      unfold is_relatively_hidden at hroot
      rw [hroot]
      rfl
    have hgate : path_exists cfg fs p = false := by
      unfold path_exists
      rw [hhid]
      simp
    rcases hq with hq | ⟨hq, hdir⟩
    · subst hq
      dsimp only
      simp [hgate]
    · subst hq
      dsimp only
      simp [hgate, hdir p hp]

/-- Claim C10 witness: the amended theorem at a concrete dot-component root
and a plain (query-less) request. -/
theorem c10_hidden_root_404_witness :
    handle_request
      (SfzConfig.mk false false false false [(".r")] none)
      (FsOracle.mk (fun _ => true) (fun _ => true) (fun _ => false)
        (fun _ => true))
      [("index.md")] none = .notFound :=
  c10_hidden_root_404
    (SfzConfig.mk false false false false [(".r")] none)
    (FsOracle.mk (fun _ => true) (fun _ => true) (fun _ => false)
      (fun _ => true))
    [("index.md")] none rfl (by decide) (Or.inl rfl)

end Sfz
